import Mathlib

/-!
Verification of the DrugRiskML risk-assessment pipeline against a shallow
embedding of its Python source (ensemble_predict.py, fastapi_ensemble_api.py,
enhanced_ensemble_model.py, train_snowflake_model.py, xgboost_scikit_ensemble.py,
models/predict.py).

Probabilities and scores are modelled as rationals: the source only compares
and averages IEEE-754 doubles, comparisons on doubles agree with the rational
order on the exact values they denote, and every threshold involved (0.7, 0.4,
0.8, 0.2, 0.6) is an exact parameter of the decision logic being checked.
-/

namespace DrugRiskML

/-- Risk tier labels produced by the risk scorer. -/
inductive RiskLevel where
  | LOW
  | MODERATE
  | HIGH
deriving DecidableEq, Repr

/-- Confidence band labels produced by the risk scorer. -/
inductive Confidence where
  | LOW
  | MEDIUM
  | HIGH
deriving DecidableEq, Repr

/-- Embedding of EnsemblePredictor.get_risk_level (ensemble_predict.py,
lines 133-140). FastAPIEnsembleModel.get_risk_level
(fastapi_ensemble_api.py, lines 155-161) has the identical body. -/
def getRiskLevel (p : ℚ) : RiskLevel :=
  if p ≥ 7/10 then .HIGH
  else if p ≥ 4/10 then .MODERATE
  else .LOW

/-- Embedding of EnsemblePredictor.get_confidence (ensemble_predict.py,
lines 142-149). FastAPIEnsembleModel.get_confidence
(fastapi_ensemble_api.py, lines 163-169) has the identical body. -/
def getConfidence (p : ℚ) : Confidence :=
  if p ≥ 8/10 ∨ p ≤ 2/10 then .HIGH
  else if p ≥ 6/10 ∨ p ≤ 4/10 then .MEDIUM
  else .LOW

/-- C1: for every probability p the risk scorer returns HIGH exactly when
p is at least 0.7, MODERATE exactly when 0.4 is at most p and p is below 0.7,
and LOW exactly when p is below 0.4; in particular p = 0.7 yields HIGH,
p = 0.4 yields MODERATE, and the values just below the two cutoffs fall in
the lower tier (boundary values go to the upper, inclusive branch). -/
theorem getRiskLevel_spec (p : ℚ) :
    (getRiskLevel p = .HIGH ↔ 7/10 ≤ p) ∧
    (getRiskLevel p = .MODERATE ↔ 4/10 ≤ p ∧ p < 7/10) ∧
    (getRiskLevel p = .LOW ↔ p < 4/10) ∧
    getRiskLevel (7/10) = .HIGH ∧
    getRiskLevel (4/10) = .MODERATE ∧
    getRiskLevel (699999/1000000) = .MODERATE ∧
    getRiskLevel (399999/1000000) = .LOW := by
  refine ⟨?_, ?_, ?_, by norm_num [getRiskLevel], by norm_num [getRiskLevel],
    by norm_num [getRiskLevel], by norm_num [getRiskLevel]⟩
  · unfold getRiskLevel
    split_ifs with h1 h2
    · simpa using h1
    · simpa using h1
    · simpa using h1
  · unfold getRiskLevel
    split_ifs with h1 h2
    · simp only [reduceCtorEq, false_iff, not_and, not_lt]
      intro _
      exact h1
    · simp only [true_iff]
      exact ⟨h2, not_le.mp h1⟩
    · simp only [reduceCtorEq, false_iff, not_and, not_lt]
      intro hx
      exact absurd hx h2
  · unfold getRiskLevel
    split_ifs with h1 h2
    · simp only [reduceCtorEq, false_iff, not_lt]
      linarith
    · simp only [reduceCtorEq, false_iff, not_lt]
      exact h2
    · simp only [true_iff]
      exact not_le.mp h2

/-- C2: for every probability p the confidence band is HIGH exactly when
p is at least 0.8 or at most 0.2, MEDIUM exactly when (p at least 0.6 or
at most 0.4) and not already HIGH, and LOW otherwise; in particular
p = 0.8 and p = 0.2 yield HIGH, p = 0.6 yields MEDIUM and p = 0.5 yields LOW. -/
theorem getConfidence_spec (p : ℚ) :
    (getConfidence p = .HIGH ↔ (8/10 ≤ p ∨ p ≤ 2/10)) ∧
    (getConfidence p = .MEDIUM ↔
      ((6/10 ≤ p ∨ p ≤ 4/10) ∧ ¬ (8/10 ≤ p ∨ p ≤ 2/10))) ∧
    (getConfidence p = .LOW ↔ ¬ (6/10 ≤ p ∨ p ≤ 4/10)) ∧
    getConfidence (8/10) = .HIGH ∧
    getConfidence (2/10) = .HIGH ∧
    getConfidence (6/10) = .MEDIUM ∧
    getConfidence (5/10) = .LOW := by
  refine ⟨?_, ?_, ?_, by norm_num [getConfidence], by norm_num [getConfidence],
    by norm_num [getConfidence], by norm_num [getConfidence]⟩
  · unfold getConfidence
    split_ifs with h1 h2
    · simpa using h1
    · simpa using h1
    · simpa using h1
  · unfold getConfidence
    split_ifs with h1 h2
    · simp only [reduceCtorEq, false_iff, not_and, not_not]
      intro _
      exact h1
    · simp only [true_iff]
      exact ⟨h2, h1⟩
    · simp only [reduceCtorEq, false_iff, not_and, not_not]
      intro hx
      exact absurd hx h2
  · unfold getConfidence
    split_ifs with h1 h2
    · simp only [reduceCtorEq, false_iff, not_not]
      rcases h1 with ha | ha
      · exact Or.inl (by linarith)
      · exact Or.inr (by linarith)
    · simp only [reduceCtorEq, false_iff, not_not]
      exact h2
    · simp only [true_iff]
      exact h2

/-- C10: whenever the confidence band of a probability is HIGH (p at least 0.8
or p at most 0.2), the risk level of the same probability is never MODERATE:
HIGH confidence co-occurs only with the HIGH or LOW risk tier. -/
theorem highConfidence_never_moderate (p : ℚ)
    (h : getConfidence p = .HIGH) : getRiskLevel p ≠ .MODERATE := by
  have hp : 8/10 ≤ p ∨ p ≤ 2/10 := by
    by_contra hc
    unfold getConfidence at h
    rw [if_neg hc] at h
    split_ifs at h
  unfold getRiskLevel
  rcases hp with hp | hp
  · rw [if_pos (by linarith : p ≥ 7/10)]
    simp
  · rw [if_neg (by simp only [not_le, ge_iff_le]; linarith : ¬ p ≥ 7/10),
      if_neg (by simp only [not_le, ge_iff_le]; linarith : ¬ p ≥ 4/10)]
    simp

/-- Witness for C10 at the concrete probability 0.9. -/
theorem highConfidence_never_moderate_witness :
    getConfidence (9/10) = .HIGH ∧ getRiskLevel (9/10) ≠ .MODERATE :=
  ⟨by norm_num [getConfidence],
   highConfidence_never_moderate (9/10) (by norm_num [getConfidence])⟩

/-! ## Feature engineering: zero-guarded ratio (C4) -/

/-- Embedding of the pandas zero-guard `VARIANT_COUNT.replace(0, 1)` used as
the denominator of the ratio feature by DrugRiskTrainer.engineer_features
(train_snowflake_model.py, line 93); variant counts are nonnegative integers. -/
def replaceZeroWithOne (n : ℕ) : ℕ := if n = 0 then 1 else n

/-- Embedding of the training-time ratio feature
HIGH_RISK_VARIANTS / VARIANT_COUNT.replace(0, 1)
(train_snowflake_model.py, line 93). -/
def highRiskRatioTrain (highRiskVariants variantCount : ℕ) : ℚ :=
  (highRiskVariants : ℚ) / (replaceZeroWithOne variantCount : ℚ)

/-- Embedding of the inference-time ratio feature
high_risk_variants / max(variant_count, 1) (models/predict.py, line 31). -/
def highRiskRatioPredict (highRiskVariants variantCount : ℕ) : ℚ :=
  (highRiskVariants : ℚ) / ((max variantCount 1 : ℕ) : ℚ)

/-- C4: for every prescription record with nonnegative variant_count and
high_risk_variants, the ratio feature is computed with a strictly positive
denominator (no division by zero) and both the training-time form
(denominator VARIANT_COUNT.replace(0,1)) and the inference-time form equal
high_risk_variants / max(variant_count, 1). -/
theorem highRiskRatio_zero_guard (hrv vc : ℕ) :
    0 < replaceZeroWithOne vc ∧
    0 < max vc 1 ∧
    replaceZeroWithOne vc = max vc 1 ∧
    highRiskRatioTrain hrv vc = (hrv : ℚ) / ((max vc 1 : ℕ) : ℚ) ∧
    highRiskRatioPredict hrv vc = (hrv : ℚ) / ((max vc 1 : ℕ) : ℚ) := by
  have hmax : replaceZeroWithOne vc = max vc 1 := by
    unfold replaceZeroWithOne
    split_ifs with h
    · omega
    · omega
  refine ⟨by omega, by omega, hmax, ?_, rfl⟩
  unfold highRiskRatioTrain
  rw [hmax]

/-! ## Ensemble soft-voting combination (C3)

The ensemble is a scikit-learn VotingClassifier constructed with soft voting
by EnhancedDrugRiskTrainer.create_ensemble_model (enhanced_ensemble_model.py,
lines 215-226) and XGBoostScikitEnsemble.create_models
(xgboost_scikit_ensemble.py, lines 40-47). Soft voting averages the member
class-probability vectors componentwise and predicts the argmax of the
average (numpy argmax returns the first maximal index, so an exact tie
yields class 0). Each binary member is represented by its pair
(class-0 probability, class-1 probability). -/

/-- Componentwise average of the member class-probability pairs, the
combination rule of VotingClassifier with soft voting. -/
def softVoteAvg (members : List (ℚ × ℚ)) : ℚ × ℚ :=
  ((members.map Prod.fst).sum / members.length,
   (members.map Prod.snd).sum / members.length)

/-- Hard prediction of the soft-voting ensemble: argmax over the averaged
class probabilities, first maximal index on ties. -/
def softVotePredict (members : List (ℚ × ℚ)) : ℕ :=
  if (softVoteAvg members).1 < (softVoteAvg members).2 then 1 else 0

/-- Member classifiers viewed through their class-1 probability p contribute
the class-probability pair (1 - p, p). -/
def memberProbs (ps : List ℚ) : List (ℚ × ℚ) := ps.map (fun p => (1 - p, p))

theorem sum_map_one_sub (ps : List ℚ) :
    (ps.map (fun p => 1 - p)).sum = ps.length - ps.sum := by
  induction ps with
  | nil => simp
  | cons q qs ih =>
    simp only [List.map_cons, List.sum_cons, List.length_cons, ih]
    push_cast
    ring

/-- C3: for any fixed nonempty list of selected candidates' class-1
probabilities, the soft-voting ensemble's output class-1 probability is their
arithmetic mean, its hard prediction is the argmax of the averaged class
probabilities (class 1 exactly when the mean exceeds one half), and members
outputting 0.9, 0.7, 0.5, 0.3 give ensemble probability 0.6. -/
theorem softVote_mean (ps : List ℚ) (h : ps ≠ []) :
    (softVoteAvg (memberProbs ps)).2 = ps.sum / ps.length ∧
    (softVotePredict (memberProbs ps) = 1 ↔ 1/2 < ps.sum / ps.length) ∧
    (softVoteAvg (memberProbs [9/10, 7/10, 5/10, 3/10])).2 = 6/10 := by
  have hn : (0 : ℚ) < ps.length := by
    have := List.length_pos.mpr h
    exact_mod_cast this
  have hsnd : ((memberProbs ps).map Prod.snd).sum = ps.sum := by
    simp only [memberProbs, List.map_map]
    have : (Prod.snd ∘ fun p => ((1 : ℚ) - p, p)) = id := rfl
    rw [this, List.map_id]
  have hfst : ((memberProbs ps).map Prod.fst).sum = ps.length - ps.sum := by
    simp only [memberProbs, List.map_map]
    exact sum_map_one_sub ps
  have hlen : (memberProbs ps).length = ps.length := by
    simp [memberProbs]
  refine ⟨?_, ?_, by norm_num [softVoteAvg, memberProbs]⟩
  · simp [softVoteAvg, hsnd, hlen]
  · unfold softVotePredict
    simp only [softVoteAvg, hsnd, hfst, hlen]
    split_ifs with hgt
    · simp only [true_iff]
      have hlt : (ps.length : ℚ) - ps.sum < ps.sum := (div_lt_div_iff_of_pos_right hn).mp hgt
      rw [lt_div_iff₀ hn]
      linarith
    · simp only [OfNat.zero_ne_ofNat, false_iff, not_lt]
      have hge : ps.sum ≤ (ps.length : ℚ) - ps.sum := by
        have := (not_lt.mp hgt)
        exact (div_le_div_iff_of_pos_right hn).mp this
      rw [div_le_iff₀ hn]
      linarith

/-- Witness for C3 at the concrete member outputs 0.9, 0.7, 0.5, 0.3. -/
theorem softVote_mean_witness :
    ([9/10, 7/10, 5/10, 3/10] : List ℚ) ≠ [] ∧
    (softVoteAvg (memberProbs [9/10, 7/10, 5/10, 3/10])).2 =
      ([9/10, 7/10, 5/10, 3/10] : List ℚ).sum /
        (([9/10, 7/10, 5/10, 3/10] : List ℚ).length : ℚ) :=
  ⟨by simp, (softVote_mean [9/10, 7/10, 5/10, 3/10] (by simp)).1⟩

/-! ## Candidate bank scoring and ensemble selection (C5, C6)

EnhancedDrugRiskTrainer.train_individual_models (enhanced_ensemble_model.py,
lines 202-213) fits and cross-validates each candidate of the bank in turn;
a candidate that raises is recorded with score 0 and the loop continues.
EnhancedDrugRiskTrainer.create_ensemble_model (lines 215-226) sorts the
(name, score) items by score descending with Python's sorted (guaranteed
stable, also with reverse=True), keeps the first four, and keeps those whose
name is a key of the individual_models dict. A stable sort into descending
score order is unique, so a stable insertion sort embeds Python's sorted. -/

/-- Embedding of train_individual_models (enhanced_ensemble_model.py,
lines 202-213): each candidate outcome is either its mean cross-validated
ROC-AUC score or a raised exception, and an exception is recorded as
score 0 while training continues with the remaining candidates. -/
def trainIndividualModels (outcomes : List (String × Except Unit ℚ)) :
    List (String × ℚ) :=
  outcomes.map (fun nr => (nr.1, match nr.2 with | .ok s => s | .error _ => 0))

/-- Insertion step of a stable descending sort on the score component: the
new element passes over elements with strictly greater score and stops in
front of the first element whose score is not strictly greater, which is the
tie behaviour of a stable descending sort. -/
def insertByScoreDesc (x : String × ℚ) :
    List (String × ℚ) → List (String × ℚ)
  | [] => [x]
  | y :: ys => if x.2 < y.2 then y :: insertByScoreDesc x ys else x :: y :: ys

/-- Stable descending sort by score, the embedding of
sorted(model_scores.items(), key score, reverse=True)
(enhanced_ensemble_model.py, line 216). -/
def sortByScoreDesc : List (String × ℚ) → List (String × ℚ)
  | [] => []
  | x :: xs => insertByScoreDesc x (sortByScoreDesc xs)

/-- Embedding of create_ensemble_model (enhanced_ensemble_model.py,
lines 215-226): keep the first four entries of the descending sort, then
keep those whose name is a key of the individual_models dict. -/
def createEnsembleSelection (models : List String)
    (scores : List (String × ℚ)) : List (String × ℚ) :=
  ((sortByScoreDesc scores).take 4).filter (fun x => models.contains x.1)

/-- Candidate creation order of create_individual_models
(enhanced_ensemble_model.py, lines 163-200), which is the iteration order of
the individual_models dict and hence the first-seen order of the scores. -/
def candidateBankNames : List String := ["xgb", "rf", "gb", "lr", "svm", "mlp"]

/-- Selection as run by run_enhanced_training_pipeline
(enhanced_ensemble_model.py, lines 307-309): the recorded scores of the bank
are fed to create_ensemble_model, whose membership filter uses the keys of
the same dict the outcomes came from. -/
def ensembleFromOutcomes (outcomes : List (String × Except Unit ℚ)) :
    List (String × ℚ) :=
  createEnsembleSelection (outcomes.map Prod.fst) (trainIndividualModels outcomes)

theorem mem_insertByScoreDesc (x a : String × ℚ) (l : List (String × ℚ)) :
    a ∈ insertByScoreDesc x l ↔ a = x ∨ a ∈ l := by
  induction l with
  | nil => simp [insertByScoreDesc]
  | cons y ys ih =>
    unfold insertByScoreDesc
    split_ifs with h
    · simp only [List.mem_cons, ih]
      tauto
    · simp only [List.mem_cons]

theorem perm_insertByScoreDesc (x : String × ℚ) (l : List (String × ℚ)) :
    List.Perm (insertByScoreDesc x l) (x :: l) := by
  induction l with
  | nil => exact List.Perm.refl _
  | cons y ys ih =>
    unfold insertByScoreDesc
    split_ifs with h
    · exact (ih.cons y).trans (List.Perm.swap x y ys)
    · exact List.Perm.refl _

theorem perm_sortByScoreDesc (l : List (String × ℚ)) :
    List.Perm (sortByScoreDesc l) l := by
  induction l with
  | nil => exact List.Perm.refl _
  | cons x xs ih =>
    exact (perm_insertByScoreDesc x (sortByScoreDesc xs)).trans (ih.cons x)

theorem sorted_insertByScoreDesc (x : String × ℚ) (l : List (String × ℚ))
    (hl : l.Pairwise (fun a b => b.2 ≤ a.2)) :
    (insertByScoreDesc x l).Pairwise (fun a b => b.2 ≤ a.2) := by
  induction l with
  | nil => simp [insertByScoreDesc]
  | cons y ys ih =>
    rcases List.pairwise_cons.mp hl with ⟨hy, hys⟩
    unfold insertByScoreDesc
    split_ifs with h
    · refine List.pairwise_cons.mpr ⟨?_, ih hys⟩
      intro b hb
      rcases (mem_insertByScoreDesc x b ys).mp hb with rfl | hbys
      · exact le_of_lt h
      · exact hy b hbys
    · refine List.pairwise_cons.mpr ⟨?_, hl⟩
      intro b hb
      rcases List.mem_cons.mp hb with rfl | hbys
      · exact not_lt.mp h
      · exact le_trans (hy b hbys) (not_lt.mp h)

theorem sorted_sortByScoreDesc (l : List (String × ℚ)) :
    (sortByScoreDesc l).Pairwise (fun a b => b.2 ≤ a.2) := by
  induction l with
  | nil => simp [sortByScoreDesc]
  | cons x xs ih => exact sorted_insertByScoreDesc x (sortByScoreDesc xs) ih

theorem filter_insertByScoreDesc (x : String × ℚ) (l : List (String × ℚ))
    (q : ℚ) :
    (insertByScoreDesc x l).filter (fun a => decide (a.2 = q)) =
      ((x :: l).filter (fun a => decide (a.2 = q))) := by
  induction l with
  | nil => rfl
  | cons y ys ih =>
    unfold insertByScoreDesc
    split_ifs with hxy
    · by_cases hy : y.2 = q <;> by_cases hx : x.2 = q
      · exfalso
        rw [hx, hy] at hxy
        exact lt_irrefl q hxy
      · simp [List.filter_cons, ih, hy, hx]
      · simp [List.filter_cons, ih, hy, hx]
      · simp [List.filter_cons, ih, hy, hx]
    · rfl

theorem filter_sortByScoreDesc (l : List (String × ℚ)) (q : ℚ) :
    (sortByScoreDesc l).filter (fun a => decide (a.2 = q)) =
      l.filter (fun a => decide (a.2 = q)) := by
  induction l with
  | nil => rfl
  | cons x xs ih =>
    calc (sortByScoreDesc (x :: xs)).filter (fun a => decide (a.2 = q))
        = ((x :: sortByScoreDesc xs).filter (fun a => decide (a.2 = q))) :=
          filter_insertByScoreDesc x (sortByScoreDesc xs) q
      _ = (x :: xs).filter (fun a => decide (a.2 = q)) := by
          simp only [List.filter_cons, ih]

theorem take_pos_of_sorted (l : List (String × ℚ))
    (hl : l.Pairwise (fun a b => b.2 ≤ a.2)) (k : ℕ)
    (hcount : k ≤ (l.filter (fun a => decide (0 < a.2))).length) :
    ∀ x ∈ l.take k, 0 < x.2 := by
  induction l generalizing k with
  | nil => simp
  | cons a rest ih =>
    rcases List.pairwise_cons.mp hl with ⟨ha, hrest⟩
    cases k with
    | zero => simp
    | succ k =>
      by_cases hpa : 0 < a.2
      · intro x hx
        rw [List.take_succ_cons] at hx
        rcases List.mem_cons.mp hx with rfl | hxs
        · exact hpa
        · refine ih hrest k ?_ x hxs
          rw [List.filter_cons, if_pos (by simpa using hpa)] at hcount
          simpa using hcount
      · exfalso
        have hnil : (a :: rest).filter (fun a => decide (0 < a.2)) = [] := by
          rw [List.filter_eq_nil_iff]
          intro b hb
          rcases List.mem_cons.mp hb with rfl | hbs
          · simpa using hpa
          · have hle : b.2 ≤ a.2 := ha b hbs
            have : ¬ 0 < b.2 := by
              intro hb0
              exact hpa (lt_of_lt_of_le hb0 hle)
            simpa using this
        rw [hnil] at hcount
        simp at hcount

/-- C6: ensemble selection is deterministic and order-stable: for identical
score assignments the selected list is identical; the selection consists of
the first four entries of the descending stable sort restricted to bank
members; the selection is sorted by score descending; and for every score
value the sorted order restricts to the first-seen input order on the
candidates carrying that score (ties are won by the first-seen candidate). -/
theorem ensembleSelection_deterministic (models : List String)
    (scores scores2 : List (String × ℚ)) (h : scores = scores2) :
    createEnsembleSelection models scores =
      createEnsembleSelection models scores2 ∧
    createEnsembleSelection models scores =
      ((sortByScoreDesc scores).take 4).filter (fun x => models.contains x.1) ∧
    (createEnsembleSelection models scores).Pairwise (fun a b => b.2 ≤ a.2) ∧
    (∀ q : ℚ, (sortByScoreDesc scores).filter (fun a => decide (a.2 = q)) =
      scores.filter (fun a => decide (a.2 = q))) := by
  subst h
  refine ⟨rfl, rfl, ?_, fun q => filter_sortByScoreDesc scores q⟩
  have hsorted := sorted_sortByScoreDesc scores
  have htake : ((sortByScoreDesc scores).take 4).Pairwise
      (fun a b => b.2 ≤ a.2) :=
    hsorted.sublist (List.take_sublist 4 _)
  exact htake.sublist (List.filter_sublist _)

/-- Witness for C6 at a concrete score assignment containing the tie
0.8 between rf and gb. -/
theorem ensembleSelection_deterministic_witness :
    createEnsembleSelection candidateBankNames
        [("xgb", 9/10), ("rf", 8/10), ("gb", 8/10), ("lr", 6/10),
         ("svm", 5/10), ("mlp", 4/10)] =
      ((sortByScoreDesc
        [("xgb", 9/10), ("rf", 8/10), ("gb", 8/10), ("lr", 6/10),
         ("svm", 5/10), ("mlp", 4/10)]).take 4).filter
        (fun x => candidateBankNames.contains x.1) :=
  (ensembleSelection_deterministic candidateBankNames
    [("xgb", 9/10), ("rf", 8/10), ("gb", 8/10), ("lr", 6/10),
     ("svm", 5/10), ("mlp", 4/10)]
    [("xgb", 9/10), ("rf", 8/10), ("gb", 8/10), ("lr", 6/10),
     ("svm", 5/10), ("mlp", 4/10)] rfl).2.1

/-- C5 counterexample: with the six-candidate bank in which lr, svm and mlp
raise during fit, the failed candidate lr is recorded with score 0 and
nevertheless selected into the ensemble (the top four of the descending sort
include a score-0 candidate once fewer than four candidates score above 0),
refuting the C5 statement that a failing candidate is excluded from ensemble
selection. -/
theorem candidateFailure_selected_cex :
    trainIndividualModels
        [("xgb", Except.ok (9/10)), ("rf", Except.ok (8/10)),
         ("gb", Except.ok (7/10)), ("lr", Except.error ()),
         ("svm", Except.error ()), ("mlp", Except.error ())] =
      [("xgb", 9/10), ("rf", 8/10), ("gb", 7/10), ("lr", 0),
       ("svm", 0), ("mlp", 0)] ∧
    ("lr", (0 : ℚ)) ∈ ensembleFromOutcomes
        [("xgb", Except.ok (9/10)), ("rf", Except.ok (8/10)),
         ("gb", Except.ok (7/10)), ("lr", Except.error ()),
         ("svm", Except.error ()), ("mlp", Except.error ())] := by
  constructor
  · rfl
  · have hsel : ensembleFromOutcomes
        [("xgb", Except.ok (9/10)), ("rf", Except.ok (8/10)),
         ("gb", Except.ok (7/10)), ("lr", Except.error ()),
         ("svm", Except.error ()), ("mlp", Except.error ())] =
        [("xgb", 9/10), ("rf", 8/10), ("gb", 7/10), ("lr", 0)] := by
      norm_num [ensembleFromOutcomes, createEnsembleSelection, sortByScoreDesc,
        insertByScoreDesc, trainIndividualModels, List.filter, List.take]
    rw [hsel]
    simp

/-- C5 as amended: a candidate that raises during fit or cross-validation is
recorded with score 0, training continues (every candidate of the bank gets a
recorded score), and the failed candidate is excluded from ensemble selection
whenever at least four candidates have strictly positive recorded scores;
with fewer than four positive scores a score-0 candidate can be selected. -/
theorem candidateFailure_graceful (outcomes : List (String × Except Unit ℚ))
    (name : String)
    (hmem : (name, (Except.error () : Except Unit ℚ)) ∈ outcomes)
    (hpos : 4 ≤ ((trainIndividualModels outcomes).filter
      (fun a => decide (0 < a.2))).length) :
    (name, (0 : ℚ)) ∈ trainIndividualModels outcomes ∧
    (trainIndividualModels outcomes).length = outcomes.length ∧
    ∀ x ∈ ensembleFromOutcomes outcomes, 0 < x.2 := by
  refine ⟨?_, by simp [trainIndividualModels], ?_⟩
  · exact List.mem_map.mpr ⟨(name, Except.error ()), hmem, rfl⟩
  · intro x hx
    have hx4 : x ∈ (sortByScoreDesc (trainIndividualModels outcomes)).take 4 :=
      List.mem_of_mem_filter hx
    have hperm := perm_sortByScoreDesc (trainIndividualModels outcomes)
    have hlen : ((sortByScoreDesc (trainIndividualModels outcomes)).filter
        (fun a => decide (0 < a.2))).length =
        ((trainIndividualModels outcomes).filter
        (fun a => decide (0 < a.2))).length :=
      (hperm.filter _).length_eq
    exact take_pos_of_sorted _ (sorted_sortByScoreDesc _) 4
      (by rw [hlen]; exact hpos) x hx4

/-- Witness for the amended C5: a bank where lr fails but four candidates
score above 0; the failed candidate is recorded with score 0, all six
candidates are recorded, and every selected candidate has positive score. -/
theorem candidateFailure_graceful_witness :
    (("lr", (Except.error () : Except Unit ℚ)) ∈
      [("xgb", Except.ok ((9:ℚ)/10)), ("rf", Except.ok (8/10)),
       ("gb", Except.ok (7/10)), ("lr", Except.error ()),
       ("svm", Except.ok (6/10)), ("mlp", Except.ok (5/10))]) ∧
    (("lr", (0 : ℚ)) ∈ trainIndividualModels
      [("xgb", Except.ok ((9:ℚ)/10)), ("rf", Except.ok (8/10)),
       ("gb", Except.ok (7/10)), ("lr", Except.error ()),
       ("svm", Except.ok (6/10)), ("mlp", Except.ok (5/10))]) ∧
    ∀ x ∈ ensembleFromOutcomes
      [("xgb", Except.ok ((9:ℚ)/10)), ("rf", Except.ok (8/10)),
       ("gb", Except.ok (7/10)), ("lr", Except.error ()),
       ("svm", Except.ok (6/10)), ("mlp", Except.ok (5/10))], 0 < x.2 := by
  have h := candidateFailure_graceful
    [("xgb", Except.ok ((9:ℚ)/10)), ("rf", Except.ok (8/10)),
     ("gb", Except.ok (7/10)), ("lr", Except.error ()),
     ("svm", Except.ok (6/10)), ("mlp", Except.ok (5/10))]
    "lr" (by simp) (by norm_num [trainIndividualModels, List.filter])
  exact ⟨by simp, h.1, h.2.2⟩

/-! ## Artifact loading at service start (C8)

FastAPIEnsembleModel.load_models (fastapi_ensemble_api.py, lines 81-87) loads
the ensemble model, the XGBoost model and the scaler in sequence inside a try
block whose handler re-raises; the loader runs in the constructor of the
module-level ensemble_api object, so a raised exception prevents the service
from starting. EnsemblePredictor.load_models (ensemble_predict.py, lines
24-48) performs the same sequence plus a metadata read, but its handler only
prints the error and returns normally, keeping whatever attributes were
assigned before the failure. -/

/-- Which artifact files load successfully in a given environment. -/
structure ArtifactEnv where
  ensembleOk : Bool
  xgbOk : Bool
  scalerOk : Bool
  metadataOk : Bool
deriving DecidableEq, Repr

/-- Loaded-artifact attributes of a predictor object; none models a Python
attribute still holding its initializer None. -/
structure LoadedState where
  ensembleModel : Option Unit
  xgbModel : Option Unit
  scaler : Option Unit
deriving DecidableEq, Repr

/-- Embedding of EnsemblePredictor.load_models (ensemble_predict.py,
lines 24-48): the three attribute assignments run in order until the first
failing load; the except handler prints and returns normally, so the
partially assigned state is kept. The trailing metadata read (lines 42-44)
stores no attribute, so its outcome changes no state. -/
def predictorLoadModels (env : ArtifactEnv) : LoadedState :=
  if env.ensembleOk then
    if env.xgbOk then
      if env.scalerOk then
        { ensembleModel := some (), xgbModel := some (), scaler := some () }
      else { ensembleModel := some (), xgbModel := some (), scaler := none }
    else { ensembleModel := some (), xgbModel := none, scaler := none }
  else { ensembleModel := none, xgbModel := none, scaler := none }

/-- Embedding of FastAPIEnsembleModel.load_models (fastapi_ensemble_api.py,
lines 81-87): the except handler re-raises, so any failing load aborts the
construction of the module-level ensemble_api object and the service never
starts. -/
def fastapiLoadModels (env : ArtifactEnv) : Except Unit LoadedState :=
  if env.ensembleOk then
    if env.xgbOk then
      if env.scalerOk then
        .ok { ensembleModel := some (), xgbModel := some (), scaler := some () }
      else .error ()
    else .error ()
  else .error ()

/-- Serving condition of EnsemblePredictor.predict_ensemble
(ensemble_predict.py, lines 72-91): a prediction result is produced exactly
when the ensemble model attribute is set; a missing scaler merely skips the
scaling step in preprocess_features (lines 66-68). -/
def predictorServes (s : LoadedState) : Bool := s.ensembleModel.isSome

/-- State in which all three required artifacts are resident. -/
def fullyLoaded (s : LoadedState) : Bool :=
  s.ensembleModel.isSome && s.xgbModel.isSome && s.scaler.isSome

/-- C8 counterexample: in the environment where the ensemble and XGBoost
models load but the scaler file is missing or corrupt, the EnsemblePredictor
finishes loading without raising, is left in a partially loaded state (no
scaler), and still serves predictions — refuting the C8 statement that the
predictor never proceeds to serve predictions from a partially loaded
state. -/
theorem partialLoad_serves_cex :
    predictorLoadModels ⟨true, true, false, true⟩ =
      { ensembleModel := some (), xgbModel := some (), scaler := none } ∧
    fullyLoaded (predictorLoadModels ⟨true, true, false, true⟩) = false ∧
    predictorServes (predictorLoadModels ⟨true, true, false, true⟩) = true := by
  decide

/-- C8 as amended: the FastAPI service's artifact loading is all-or-nothing —
startup succeeds exactly when the ensemble model, the XGBoost model and the
scaler all load, any successful startup state is fully loaded, and any
missing artifact is a fatal startup condition; the standalone
EnsemblePredictor, by contrast, swallows load errors and serves predictions
whenever the ensemble model itself loaded, even from a partially loaded
state. -/
theorem fastapiLoad_allOrNothing (env : ArtifactEnv) :
    ((fastapiLoadModels env).isOk = true ↔
      (env.ensembleOk = true ∧ env.xgbOk = true ∧ env.scalerOk = true)) ∧
    (∀ s, fastapiLoadModels env = .ok s → fullyLoaded s = true) ∧
    predictorServes (predictorLoadModels env) = env.ensembleOk := by
  rcases env with ⟨e, x, sc, m⟩
  cases e <;> cases x <;> cases sc <;>
    simp [fastapiLoadModels, predictorLoadModels, predictorServes,
      fullyLoaded, Except.isOk, Except.toBool]

/-- Witness for the amended C8 in the environment where every artifact
loads. -/
theorem fastapiLoad_allOrNothing_witness :
    (fastapiLoadModels ⟨true, true, true, true⟩).isOk = true ∧
    fullyLoaded ⟨some (), some (), some ()⟩ = true :=
  ⟨((fastapiLoad_allOrNothing ⟨true, true, true, true⟩).1).mpr
      ⟨rfl, rfl, rfl⟩,
   (fastapiLoad_allOrNothing ⟨true, true, true, true⟩).2.1
      ⟨some (), some (), some ()⟩ rfl⟩

/-! ## Interaction features (C9)

EnhancedDrugRiskTrainer.engineer_features (enhanced_ensemble_model.py, lines
108-122) aggregates the interaction reference table per GENE (nunique DRUGS,
count of SIGNIFICANCE equal to High), left-merges the aggregates onto the
variant rows on GENE, sums per UPLOAD_ID, and left-merges the sums onto the
prescriptions with fillna(0). DrugRiskTrainer.engineer_features
(train_snowflake_model.py, lines 114-117) instead takes value_counts over
the whole SIGNIFICANCE column and assigns the scalar counts to every
prescription row alike, with no gene join and no per-patient grouping. -/

/-- Variant row fields used by the interaction-feature computation (the
UPLOAD_ID and GENE columns of ANNOTATED_VARIANTS). -/
structure VariantRow where
  uploadId : ℕ
  gene : String
deriving DecidableEq, Repr

/-- Interaction reference row fields used by the computation (the GENE,
DRUGS and SIGNIFICANCE columns of PHARMGKB_VARIANT_DRUG). -/
structure InteractionRow where
  gene : String
  drugs : String
  significance : String
deriving DecidableEq, Repr

/-- Per-gene aggregate nunique of DRUGS over the reference table
(enhanced_ensemble_model.py, line 110); a gene absent from the table
aggregates to 0, matching the NaN of the left merge being skipped by the
pandas sum. -/
def geneDrugInteractions (interactions : List InteractionRow)
    (g : String) : ℕ :=
  (((interactions.filter (fun r => r.gene = g)).map
    (fun r => r.drugs)).dedup).length

/-- Per-gene count of reference rows with SIGNIFICANCE equal to High
(enhanced_ensemble_model.py, line 111). -/
def geneHighSigInteractions (interactions : List InteractionRow)
    (g : String) : ℕ :=
  (interactions.filter (fun r => r.gene = g ∧ r.significance = "High")).length

/-- Embedding of the per-patient interaction features of
EnhancedDrugRiskTrainer.engineer_features (enhanced_ensemble_model.py,
lines 108-122): the per-gene aggregates are left-merged onto the patient's
variant rows on GENE and summed per UPLOAD_ID; a patient with no variant
rows receives 0 from the final fillna. -/
def enhancedInteractionFeats (variants : List VariantRow)
    (interactions : List InteractionRow) (u : ℕ) : ℕ × ℕ :=
  let rows := variants.filter (fun v => v.uploadId = u)
  ((rows.map (fun v => geneDrugInteractions interactions v.gene)).sum,
   (rows.map (fun v => geneHighSigInteractions interactions v.gene)).sum)

/-- Embedding of the interaction feature of DrugRiskTrainer.engineer_features
(train_snowflake_model.py, lines 115-116): the count of HIGH in the
SIGNIFICANCE column of the whole reference table, assigned identically to
every prescription row. -/
def snowflakeHighSigInteractions (interactions : List InteractionRow) : ℕ :=
  (interactions.filter (fun r => r.significance = "HIGH")).length

/-- C9 counterexample: with one reference row for gene G1 of significance
HIGH, and patients 1 (variant gene G1) and 2 (variant gene G2), the basic
trainer assigns the global count 1 to every patient, although patient 2's
variant genes never match the reference table — under the claimed
join-on-gene, group-by-patient, missing-defaults-to-0 rule patient 2 would
receive 0. The code's value for patient 2 is the global count and is not
independently computed per patient, refuting C9 for the cited
train_snowflake_model computation. -/
theorem interactionFeats_global_cex :
    snowflakeHighSigInteractions [⟨"G1", "DrugA", "HIGH"⟩] = 1 ∧
    (∀ r ∈ ([⟨"G1", "DrugA", "HIGH"⟩] : List InteractionRow),
      ∀ v ∈ ([⟨1, "G1"⟩, ⟨2, "G2"⟩] : List VariantRow).filter
        (fun v => v.uploadId = 2), ¬ r.gene = v.gene) ∧
    snowflakeHighSigInteractions [⟨"G1", "DrugA", "HIGH"⟩] ≠ 0 := by
  refine ⟨rfl, ?_, by decide⟩
  decide

/-- C9 as amended: in the enhanced trainer the interaction features are
computed per patient — joining variant rows to the reference table on gene
and grouping by upload_id with missing values defaulting to 0 — so a
patient's values depend only on that patient's own variant rows (patients
with different gene sets are computed independently), a patient with no
variant rows gets (0, 0), and a patient none of whose genes occur in the
reference table gets (0, 0); in the basic Snowflake trainer, by contrast,
the significance counts are global constants of the reference table assigned
identically to every prescription row. -/
theorem enhancedInteraction_perPatient (v1 v2 : List VariantRow)
    (interactions : List InteractionRow) (u : ℕ)
    (hloc : v1.filter (fun v => v.uploadId = u) =
      v2.filter (fun v => v.uploadId = u)) :
    enhancedInteractionFeats v1 interactions u =
      enhancedInteractionFeats v2 interactions u ∧
    (v1.filter (fun v => v.uploadId = u) = [] →
      enhancedInteractionFeats v1 interactions u = (0, 0)) ∧
    ((∀ r ∈ interactions, ∀ v ∈ v1.filter (fun v => v.uploadId = u),
        ¬ r.gene = v.gene) →
      enhancedInteractionFeats v1 interactions u = (0, 0)) := by
  refine ⟨?_, ?_, ?_⟩
  · unfold enhancedInteractionFeats
    rw [hloc]
  · intro hnil
    unfold enhancedInteractionFeats
    rw [hnil]
    rfl
  · intro hsep
    unfold enhancedInteractionFeats
    have hgene : ∀ v ∈ v1.filter (fun v => v.uploadId = u),
        (interactions.filter (fun r => r.gene = v.gene)) = [] := by
      intro v hv
      rw [List.filter_eq_nil_iff]
      intro r hr
      simpa using hsep r hr v hv
    have h1 : ∀ x ∈ (v1.filter (fun v => v.uploadId = u)).map
        (fun v => geneDrugInteractions interactions v.gene), x = 0 := by
      intro x hx
      rcases List.mem_map.mp hx with ⟨v, hv, rfl⟩
      unfold geneDrugInteractions
      rw [hgene v hv]
      rfl
    have h2 : ∀ x ∈ (v1.filter (fun v => v.uploadId = u)).map
        (fun v => geneHighSigInteractions interactions v.gene), x = 0 := by
      intro x hx
      rcases List.mem_map.mp hx with ⟨v, hv, rfl⟩
      unfold geneHighSigInteractions
      have : (interactions.filter
          (fun r => r.gene = v.gene ∧ r.significance = "High")) = [] := by
        rw [List.filter_eq_nil_iff]
        intro r hr
        have := hsep r hr v hv
        simp only [decide_eq_true_eq]
        tauto
      rw [this]
      rfl
    simp only [Prod.mk.injEq]
    exact ⟨List.sum_eq_zero h1, List.sum_eq_zero h2⟩

/-- Witness for the amended C9: patients 1 (gene G1) and 2 (gene G2) with a
reference table covering only G1; patient 2's features are those of its own
rows and the all-genes-unmatched case gives (0, 0). -/
theorem enhancedInteraction_perPatient_witness :
    (([⟨1, "G1"⟩, ⟨2, "G2"⟩] : List VariantRow).filter
        (fun v => v.uploadId = 2) =
      ([⟨2, "G2"⟩] : List VariantRow).filter (fun v => v.uploadId = 2)) ∧
    enhancedInteractionFeats [⟨1, "G1"⟩, ⟨2, "G2"⟩]
      [⟨"G1", "DrugA", "High"⟩] 2 =
      enhancedInteractionFeats [⟨2, "G2"⟩] [⟨"G1", "DrugA", "High"⟩] 2 ∧
    enhancedInteractionFeats [⟨1, "G1"⟩, ⟨2, "G2"⟩]
      [⟨"G1", "DrugA", "High"⟩] 2 = (0, 0) := by
  have h := enhancedInteraction_perPatient [⟨1, "G1"⟩, ⟨2, "G2"⟩]
    [⟨2, "G2"⟩] [⟨"G1", "DrugA", "High"⟩] 2 (by decide)
  exact ⟨by decide, h.1, h.2.2 (by decide)⟩

/-! ## Drug one-hot encoding and column-name round trip (C7)

DrugRiskTrainer.engineer_features (train_snowflake_model.py, lines 96-98)
derives one indicator column per top-10 drug, named DRUG_ followed by the
drug name uppercased with spaces turned into underscores; the column value
on a row is 1 exactly when the row's DRUG_NAME equals that drug, and pandas
assignment overwrites a column that already exists in place while appending
a new one. predict_drug_risk (models/predict.py, lines 36-39) inverts a
column name by removing every DRUG_ occurrence, turning underscores into
spaces and title-casing, and sets the indicator to 1 exactly when the
requested drug name equals the reconstruction. Drug names are modelled as
lists of characters; Python str.upper, str.title and str.replace act on the
ASCII names involved exactly as the functions below. -/

/-- Training-time column name: DRUG_ followed by the drug name uppercased
with spaces turned into underscores (train_snowflake_model.py, line 98). -/
def drugColName (d : List Char) : List Char :=
  'D' :: 'R' :: 'U' :: 'G' :: '_' ::
    (d.map Char.toUpper).map (fun c => if c = ' ' then '_' else c)

/-- Pandas column assignment df of col to v: an existing column is
overwritten in place, a new column is appended at the end. -/
def assignCol (cols : List (List Char × ℕ)) (k : List Char) (v : ℕ) :
    List (List Char × ℕ) :=
  if cols.any (fun p => p.1 = k) then
    cols.map (fun p => if p.1 = k then (k, v) else p)
  else cols ++ [(k, v)]

/-- Indicator block produced for one prescription row with DRUG_NAME d by
the assignment loop over the top-10 drugs (train_snowflake_model.py,
lines 96-98). -/
def oneHotBlock (topDrugs : List (List Char)) (d : List Char) :
    List (List Char × ℕ) :=
  topDrugs.foldl (fun cols t =>
    assignCol cols (drugColName t) (if d = t then 1 else 0)) []

/-- Removal of every occurrence of the five-character pattern DRUG_, the
effect of Python str.replace with an empty replacement
(models/predict.py, line 38). -/
def removeDrugPat : List Char → List Char
  | 'D' :: 'R' :: 'U' :: 'G' :: '_' :: rest => removeDrugPat rest
  | [] => []
  | c :: cs => c :: removeDrugPat cs

/-- Helper of pyTitle: the flag records whether the previous character was
alphabetic. -/
def pyTitleAux : Bool → List Char → List Char
  | _, [] => []
  | prev, c :: cs =>
    if c.isAlpha then
      (if prev then c.toLower else c.toUpper) :: pyTitleAux true cs
    else c :: pyTitleAux false cs

/-- Python str.title over ASCII: the first character of every run of
alphabetic characters is uppercased and the rest of the run lowercased. -/
def pyTitle (s : List Char) : List Char := pyTitleAux false s

/-- Inference-time reconstruction of a drug name from an indicator column
name: remove the DRUG_ occurrences, turn underscores into spaces and
title-case (models/predict.py, line 38). -/
def drugNameFromCol (col : List Char) : List Char :=
  pyTitle ((removeDrugPat col).map (fun c => if c = '_' then ' ' else c))

/-- Inference-time indicator value for a drug-prefixed column
(models/predict.py, line 39): 1 exactly when the requested drug name equals
the reconstructed name. -/
def inferenceDrugIndicator (col d : List Char) : ℕ :=
  if d = drugNameFromCol col then 1 else 0

theorem removeDrugPat_of_not_infix (x : List Char)
    (h : ¬ ['D', 'R', 'U', 'G', '_'] <:+: x) : removeDrugPat x = x := by
  induction x with
  | nil => rfl
  | cons c cs ih =>
    rw [removeDrugPat.eq_def]
    split
    · rename_i rest heq
      exfalso
      apply h
      rw [heq]
      exact ⟨[], rest, rfl⟩
    · rename_i heq
      exact absurd heq (List.cons_ne_nil c cs)
    · rename_i c2 cs2 hne heq
      injection heq with h1 h2
      subst h1
      subst h2
      rw [ih (fun hinf => h (List.infix_cons hinf))]

theorem assignCol_of_not_mem (cols : List (List Char × ℕ))
    (k : List Char) (v : ℕ) (h : ∀ p ∈ cols, p.1 ≠ k) :
    assignCol cols k v = cols ++ [(k, v)] := by
  unfold assignCol
  rw [if_neg]
  intro hx
  rcases List.any_eq_true.mp hx with ⟨p, hp, he⟩
  exact h p hp (by simpa using he)

theorem oneHotBlock_eq_map_aux (d : List Char)
    (topDrugs : List (List Char)) (acc : List (List Char × ℕ))
    (hdisj : ∀ t ∈ topDrugs, ∀ p ∈ acc, p.1 ≠ drugColName t)
    (hnd : (topDrugs.map drugColName).Nodup) :
    topDrugs.foldl (fun cols t =>
        assignCol cols (drugColName t) (if d = t then 1 else 0)) acc =
      acc ++ topDrugs.map (fun t => (drugColName t, if d = t then 1 else 0)) := by
  induction topDrugs generalizing acc with
  | nil => simp
  | cons t ts ih =>
    simp only [List.foldl_cons, List.map_cons]
    rw [assignCol_of_not_mem acc (drugColName t) _
      (fun p hp => hdisj t (List.mem_cons_self t ts) p hp)]
    rw [List.map_cons, List.nodup_cons] at hnd
    rw [ih (acc ++ [(drugColName t, if d = t then 1 else 0)]) ?_ hnd.2]
    · simp
    · intro t2 ht2 p hp
      rcases List.mem_append.mp hp with hpa | hpe
      · exact hdisj t2 (List.mem_cons_of_mem t ht2) p hpa
      · have hp1 : p.1 = drugColName t := by
          rcases List.mem_singleton.mp hpe with rfl
          rfl
        rw [hp1]
        intro hcc
        exact hnd.1 (hcc ▸ List.mem_map_of_mem drugColName ht2)

theorem oneHotBlock_eq_map (d : List Char) (topDrugs : List (List Char))
    (hnd : (topDrugs.map drugColName).Nodup) :
    oneHotBlock topDrugs d =
      topDrugs.map (fun t => (drugColName t, if d = t then 1 else 0)) := by
  unfold oneHotBlock
  rw [oneHotBlock_eq_map_aux d topDrugs [] (by simp) hnd]
  simp

theorem oneHotMap_filter_eq (d : List Char) (topDrugs : List (List Char))
    (hnd : topDrugs.Nodup) (hmem : d ∈ topDrugs) :
    (topDrugs.map (fun t => (drugColName t, if d = t then 1 else 0))).filter
      (fun p => p.2 = 1) = [(drugColName d, 1)] := by
  induction topDrugs with
  | nil => cases hmem
  | cons t ts ih =>
    rcases List.nodup_cons.mp hnd with ⟨htn, hts⟩
    by_cases hdt : d = t
    · subst hdt
      have hrest : (ts.map
          (fun t => (drugColName t, if d = t then 1 else 0))).filter
          (fun p => p.2 = 1) = [] := by
        rw [List.filter_eq_nil_iff]
        intro p hp
        rcases List.mem_map.mp hp with ⟨t2, ht2, rfl⟩
        have hne : d ≠ t2 := fun he => htn (he ▸ ht2)
        simp [hne]
      simp [List.filter_cons, hrest]
    · have hmem2 : d ∈ ts := by
        rcases List.mem_cons.mp hmem with rfl | hm
        · exact absurd rfl hdt
        · exact hm
      simp only [List.map_cons, List.filter_cons, if_neg hdt]
      rw [ih hts hmem2]
      simp

theorem mem_assignCol_val (cols : List (List Char × ℕ)) (k : List Char)
    (v : ℕ) (hz : ∀ p ∈ cols, p.2 = v) :
    ∀ p ∈ assignCol cols k v, p.2 = v := by
  intro p hp
  unfold assignCol at hp
  split_ifs at hp
  · rcases List.mem_map.mp hp with ⟨q, hq, rfl⟩
    split_ifs
    · rfl
    · exact hz q hq
  · rcases List.mem_append.mp hp with hqa | hqe
    · exact hz p hqa
    · rcases List.mem_singleton.mp hqe with rfl
      rfl

theorem oneHotBlock_all_zero_aux (d : List Char)
    (topDrugs : List (List Char)) (hd : d ∉ topDrugs)
    (acc : List (List Char × ℕ)) (hz : ∀ p ∈ acc, p.2 = 0) :
    ∀ p ∈ topDrugs.foldl (fun cols t =>
        assignCol cols (drugColName t) (if d = t then 1 else 0)) acc,
      p.2 = 0 := by
  induction topDrugs generalizing acc with
  | nil => simpa using hz
  | cons t ts ih =>
    simp only [List.foldl_cons]
    have hdt : d ≠ t := fun he => hd (he ▸ List.mem_cons_self t ts)
    have hdts : d ∉ ts := fun hm => hd (List.mem_cons_of_mem t hm)
    rw [if_neg hdt]
    exact ih hdts _ (mem_assignCol_val acc (drugColName t) 0 hz)

/-- C7 counterexample: the drug name WARFARIN (as stored uppercase) is a
top-N drug whose training-time column is DRUG_WARFARIN, but the
inference-time inversion reconstructs Warfarin, which does not match, so the
indicator for the drug's own column is 0 instead of 1 at inference and the
encoding round trip fails — refuting the C7 statement that the inversion
recovers a name matching the original drug. -/
theorem drugRoundTrip_cex :
    drugColName "WARFARIN".data = "DRUG_WARFARIN".data ∧
    oneHotBlock ["WARFARIN".data] "WARFARIN".data =
      [("DRUG_WARFARIN".data, 1)] ∧
    drugNameFromCol (drugColName "WARFARIN".data) = "Warfarin".data ∧
    drugNameFromCol (drugColName "WARFARIN".data) ≠ "WARFARIN".data ∧
    inferenceDrugIndicator (drugColName "WARFARIN".data) "WARFARIN".data
      = 0 := by
  refine ⟨by decide, by decide, by decide, by decide, by decide⟩

/-- C7 as amended: provided the normalized column names of the top-N drugs
are pairwise distinct, training-time encoding of a top-N drug sets exactly
one indicator to 1 — the column derived from that drug's own name — and
encoding a drug outside the top-N yields an all-zero indicator block; the
inference-time inversion of the drug's column name, however, recovers the
title-cased form of the uppercased drug name rather than the name itself
(for names without underscores and whose normalization does not contain a
further DRUG_ occurrence), so the round trip succeeds exactly for drug
names already in that title-cased form (Warfarin round-trips; WARFARIN does
not). -/
theorem drugRoundTrip_amended (topDrugs : List (List Char)) (d : List Char)
    (hnd : (topDrugs.map drugColName).Nodup)
    (hocc : ¬ ['D', 'R', 'U', 'G', '_'] <:+:
      (d.map Char.toUpper).map (fun c => if c = ' ' then '_' else c))
    (hund : '_' ∉ d.map Char.toUpper) :
    (d ∈ topDrugs →
      (oneHotBlock topDrugs d).filter (fun p => p.2 = 1) =
        [(drugColName d, 1)]) ∧
    (d ∉ topDrugs → ∀ p ∈ oneHotBlock topDrugs d, p.2 = 0) ∧
    drugNameFromCol (drugColName d) = pyTitle (d.map Char.toUpper) ∧
    (pyTitle (d.map Char.toUpper) = d →
      inferenceDrugIndicator (drugColName d) d = 1) := by
  have hinv : drugNameFromCol (drugColName d) = pyTitle (d.map Char.toUpper) := by
    unfold drugNameFromCol drugColName
    have h1 : removeDrugPat ('D' :: 'R' :: 'U' :: 'G' :: '_' ::
        (d.map Char.toUpper).map (fun c => if c = ' ' then '_' else c)) =
        removeDrugPat
          ((d.map Char.toUpper).map (fun c => if c = ' ' then '_' else c)) :=
      rfl
    rw [h1, removeDrugPat_of_not_infix _ hocc, List.map_map]
    have hmapid : ∀ c ∈ d.map Char.toUpper,
        ((fun c => if c = '_' then ' ' else c) ∘
          fun c => if c = ' ' then '_' else c) c = id c := by
      intro c hc
      have hcne : c ≠ '_' := by
        rintro rfl
        exact hund hc
      by_cases hsp : c = ' '
      · simp [Function.comp, hsp]
      · simp [Function.comp, hsp, hcne]
    congr 1
    exact (List.map_congr_left hmapid).trans (List.map_id _)
  refine ⟨?_, ?_, hinv, ?_⟩
  · intro hmem
    rw [oneHotBlock_eq_map d topDrugs hnd]
    exact oneHotMap_filter_eq d topDrugs (List.Nodup.of_map drugColName hnd) hmem
  · intro hd
    exact oneHotBlock_all_zero_aux d topDrugs hd [] (by simp)
  · intro htitle
    unfold inferenceDrugIndicator
    rw [hinv, htitle, if_pos rfl]

/-- Witness for the amended C7 at the title-cased drug name Warfarin in a
top-10 list also containing Aspirin: exactly one indicator is set, the
inversion recovers the title-cased name, and the round trip matches. -/
theorem drugRoundTrip_amended_witness :
    ((oneHotBlock ["Warfarin".data, "Aspirin".data] "Warfarin".data).filter
      (fun p => p.2 = 1) = [(drugColName "Warfarin".data, 1)]) ∧
    inferenceDrugIndicator (drugColName "Warfarin".data) "Warfarin".data
      = 1 := by
  have h := drugRoundTrip_amended ["Warfarin".data, "Aspirin".data]
    "Warfarin".data (by decide) (by decide) (by decide)
  exact ⟨h.1 (by decide), h.2.2.2 (by decide)⟩

end DrugRiskML
